import Mathlib

/-!
Verification of the content-extraction pipeline in `src/app.py` (web scraping
task).  The Python functions are shallowly embedded over an `HtmlNode` tree
type: `dynamic_scroll`, `extract_metadata`, `remove_unnecessary_elements`,
`extract_main_content`, `convert_html_to_markdown_precise`,
`parse_clean_html` and `crawl_website` are translated one-to-one, with
BeautifulSoup / Selenium tree operations modelled as recursive tree functions
and the `html2text` collaborator modelled by its documented rendering of the
tag set the pipeline exercises (paragraph/heading blocks separated by blank
lines, `[text](href)` links, `![alt](src)` images, `_em_` / `**strong**`
emphasis, whitespace runs in character data collapsed to single spaces).

Python strings are modelled as `List Char`; `str.replace` keeps Python's
left-to-right non-overlapping semantics and `str.strip` removes the Python
whitespace set from both ends.  Fallible code returns `Except String`:
`extract_main_content` can hit two distinct `AttributeError`s, one when no
content subtree exists (`None.find_all`) and one from the comment-removal
filter, whose test `isinstance(text, BeautifulSoup.Comment)` evaluates the
attribute `BeautifulSoup.Comment`, which does not exist on the
`BeautifulSoup` class and therefore raises as soon as the lambda runs on the
first string node of the cleaned subtree.
-/

/-- Python's whitespace set for `str.strip` (and the `\s` class used by the
whitespace-collapsing of character data). -/
def pyWs (c : Char) : Bool :=
  c = ' ' || c = '\t' || c = '\n' || c = '\r' || c = '\x0b' || c = '\x0c'

/-- Python `str.replace("\n\n", "\n")`: left-to-right, non-overlapping. -/
def pyCollapseNewlines : List Char → List Char
  | a :: b :: r =>
      if a = '\n' && b = '\n' then '\n' :: pyCollapseNewlines r
      else a :: pyCollapseNewlines (b :: r)
  | s => s

/-- Python `str.replace("###", "##")`: left-to-right, non-overlapping. -/
def pyHashReplace : List Char → List Char
  | a :: b :: c :: r =>
      if a = '#' && b = '#' && c = '#' then '#' :: '#' :: pyHashReplace r
      else a :: pyHashReplace (b :: c :: r)
  | s => s

/-- Remove trailing Python whitespace (the right half of `str.strip`). -/
def rstripWs : List Char → List Char
  | [] => []
  | c :: r =>
      let r' := rstripWs r
      if r' = [] && pyWs c then [] else c :: r'

/-- Python `str.strip()`: drop whitespace from both ends. -/
def pyStrip (s : List Char) : List Char :=
  List.dropWhile pyWs (rstripWs s)

/-- Substring test (XPath `contains(...)` on attribute values). -/
def listPrefixB : List Char → List Char → Bool
  | [], _ => true
  | _ :: _, [] => false
  | a :: as, b :: bs => a = b && listPrefixB as bs

/-- Substring occurrence test over character lists. -/
def listSubB (pat : List Char) : List Char → Bool
  | [] => listPrefixB pat []
  | b :: r => listPrefixB pat (b :: r) || listSubB pat r

/-- `contains(haystack, needle)` on Python strings. -/
def strContains (hay pat : String) : Bool :=
  listSubB pat.toList hay.toList

/-- The parsed document tree: BeautifulSoup `Tag`s carry a name, ordered
attributes and ordered children; `NavigableString`s are `text` nodes and
`Comment`s (a `NavigableString` subclass) are `comment` nodes. -/
inductive HtmlNode where
  | elem (tag : String) (attrs : List (String × String)) (children : List HtmlNode)
  | comment (s : String)
  | text (s : String)

/-- Attribute lookup on a tag (first binding wins, as in the parser). -/
def getAttr (name : String) : HtmlNode → Option String
  | .elem _ attrs _ => (attrs.find? (fun p => p.1 = name)).map (fun p => p.2)
  | _ => none

/-- Children of a node (empty for string nodes). -/
def childrenOf : HtmlNode → List HtmlNode
  | .elem _ _ ch => ch
  | _ => []

/-- BeautifulSoup truthiness of a `find` result: `Tag.__bool__` returns
`True` unconditionally ("a tag is non-None even if it has no contents"),
so only the `None` miss is falsy. -/
def truthyOpt : Option HtmlNode → Bool
  | none => false
  | some _ => true

mutual

/-- First node (document order, the node itself included) satisfying a
tag/attribute shape predicate — `soup.find` / `driver.find_element`. -/
def findNode (p : HtmlNode → Bool) : HtmlNode → Option HtmlNode
  | .elem t a ch =>
      if p (.elem t a ch) then some (.elem t a ch) else findNodeList p ch
  | n => if p n then some n else none

def findNodeList (p : HtmlNode → Bool) : List HtmlNode → Option HtmlNode
  | [] => none
  | c :: r =>
      match findNode p c with
      | some x => some x
      | none => findNodeList p r

end

/-- Does a node have the given tag name? -/
def isTag (g : String) : HtmlNode → Bool
  | .elem t _ _ => t = g
  | _ => false

/-- `soup.find(tag)`. -/
def findTag (g : String) (n : HtmlNode) : Option HtmlNode :=
  findNode (isTag g) n

mutual

/-- Remove every element whose tag/attribute shape matches `pred`, together
with its whole subtree, everywhere below the given root (the root itself is
never removed) — the common core of `Tag.decompose` loops over
`find_all(...)` results and of the JavaScript `element.remove()` loop. -/
def cleanTreeP (pred : String → List (String × String) → Bool) :
    HtmlNode → HtmlNode
  | .elem t a ch => .elem t a (cleanListP pred ch)
  | n => n

def cleanListP (pred : String → List (String × String) → Bool) :
    List HtmlNode → List HtmlNode
  | [] => []
  | .elem t a ch :: r =>
      if pred t a then cleanListP pred r
      else cleanTreeP pred (.elem t a ch) :: cleanListP pred r
  | n :: r => n :: cleanListP pred r

end

/-- Shape predicate matching a fixed list of tag names. -/
def tagIn (rules : List String) (t : String) (_ : List (String × String)) : Bool :=
  rules.contains t

mutual

/-- Is there a `NavigableString` (text or comment) anywhere strictly below
the root?  `find_all(string=f)` calls `f` on each of these. -/
def hasStringBelow : HtmlNode → Bool
  | .elem _ _ ch => hasStringList ch
  | _ => true

def hasStringList : List HtmlNode → Bool
  | [] => false
  | c :: r => hasStringBelow c || hasStringList r

end

mutual

/-- Concatenated character data of the subtree (comments excluded), the
model of the Selenium `element.text` read. -/
def textOf : HtmlNode → List Char
  | .elem _ _ ch => textOfList ch
  | .text s => s.toList
  | .comment _ => []

def textOfList : List HtmlNode → List Char
  | [] => []
  | c :: r => textOf c ++ textOfList r

end

/-- The tag list decomposed inside `extract_main_content`. -/
def extractNoiseTags : List String :=
  ["header", "footer", "nav", "script", "style", "aside", "form"]

/-- The tag list decomposed inside `parse_clean_html`. -/
def parseCleanTags : List String :=
  ["header", "footer", "nav", "aside", "script", "style"]

/-- The XPath rules of `remove_unnecessary_elements`: `//header`, `//footer`,
`//nav`, `//div[contains(@class, 'ads')]`, `//div[contains(@class, 'modal')]`,
`//div[contains(@id, 'cookie')]` (a missing attribute never matches). -/
def domNoise (t : String) (attrs : List (String × String)) : Bool :=
  t = "header" || t = "footer" || t = "nav" ||
  (t = "div" &&
    (((attrs.find? (fun p => p.1 = "class")).map
        (fun p => strContains p.2 "ads" || strContains p.2 "modal")).getD false ||
     ((attrs.find? (fun p => p.1 = "id")).map
        (fun p => strContains p.2 "cookie")).getD false))

/-- `remove_unnecessary_elements`: best-effort removal of noise elements from
the live DOM before the HTML is read out. -/
def remove_unnecessary_elements (dom : HtmlNode) : HtmlNode :=
  cleanTreeP domNoise dom

/-- `parse_clean_html`: decompose `header/footer/nav/aside/script/style`
over the whole parsed document. -/
def parse_clean_html (doc : HtmlNode) : HtmlNode :=
  cleanTreeP (tagIn parseCleanTags) doc

/-- `main_content = soup.find("main") or soup.find("article")`, then
`if not main_content: main_content = soup.find("body")`.  The `or` / `not`
see BeautifulSoup truthiness: a found `Tag` is always truthy and a `None`
miss is falsy, so the chain takes the first of main / article / body that
exists. -/
def selectMain (doc : HtmlNode) : Option HtmlNode :=
  let m := findTag "main" doc
  let a := if truthyOpt m then m else findTag "article" doc
  if truthyOpt a then a else findTag "body" doc

/-- The `AttributeError` raised by `None.find_all(...)` when no `main`,
`article` or `body` subtree was located. -/
def errNoSubtree : String :=
  "AttributeError: NoneType object has no attribute find_all"

/-- The `AttributeError` raised by the comment-removal filter: the class
`BeautifulSoup` has no attribute `Comment`, and the lambda that evaluates it
runs as soon as `find_all(string=...)` reaches a string node. -/
def errComment : String :=
  "AttributeError: type object BeautifulSoup has no attribute Comment"

/-- `extract_main_content`: select the main-content subtree, decompose the
noise tags inside it, then run the comment-removal filter, which raises on
the first remaining string node (text or comment). -/
def extract_main_content (doc : HtmlNode) : Except String HtmlNode :=
  match selectMain doc with
  | none => .error errNoSubtree
  | some m =>
      let m' := cleanTreeP (tagIn extractNoiseTags) m
      if hasStringBelow m' then .error errComment else .ok m'

/-- `dynamic_scroll` loop count: `scrollLoop h fuel k` performs the remaining
iterations starting at iteration `k` (each iteration sleeps one
`scroll_pause_time` second and reads height `h (k+1)`; `h 0` is the reading
taken before the loop; the guard `time.time() - start_time < timeout` admits
at most `timeout` one-second iterations).  Returns the total number of
iterations executed. -/
def scrollLoop (h : Nat → Int) : Nat → Nat → Nat
  | 0, k => k
  | fuel + 1, k => if h (k + 1) = h k then k + 1 else scrollLoop h fuel (k + 1)

/-- `dynamic_scroll(driver, timeout)`: number of scroll iterations (equally,
seconds slept) before returning. -/
def dynamic_scroll (h : Nat → Int) (timeout : Nat) : Nat :=
  scrollLoop h timeout 0

/-- The metadata dictionary assembled by `extract_metadata` (the language
lookup is stored under the key `language`). -/
structure PageMetadata where
  title : Option String
  description : Option String
  author : Option String
  keywords : Option String
  language : Option String
  canonicalUrl : String
deriving Repr, DecidableEq

/-- `//meta[@name='k']` then `.get_attribute('content')`: a missing element
raises (caught, yielding `None`); a missing attribute yields `None`. -/
def metaContent (dom : HtmlNode) (k : String) : Option String :=
  (findNode (fun n => isTag "meta" n && getAttr "name" n = some k) dom).bind
    (getAttr "content")

/-- `//html` then `.get_attribute('lang')`. -/
def langOf (dom : HtmlNode) : Option String :=
  (findTag "html" dom).bind (getAttr "lang")

/-- `extract_metadata`: each field is an independent lookup whose failure is
caught at field level; `canonicalUrl` is the driver's current URL. -/
def extract_metadata (title : Option String) (url : String) (dom : HtmlNode) :
    PageMetadata where
  title := title
  description := metaContent dom "description"
  author := metaContent dom "author"
  keywords := metaContent dom "keywords"
  language := langOf dom
  canonicalUrl := url

/-- Whitespace runs in character data collapse to a single space, the
`html2text` treatment of non-preformatted data. -/
def collapseWs : List Char → List Char
  | [] => []
  | [c] => if pyWs c then [' '] else [c]
  | a :: b :: r =>
      if pyWs a && pyWs b then collapseWs (b :: r)
      else if pyWs a then ' ' :: collapseWs (b :: r)
      else a :: collapseWs (b :: r)

/-- Markdown heading depth of a tag (`h1` … `h6`). -/
def headingLevel (t : String) : Option Nat :=
  if t = "h1" then some 1
  else if t = "h2" then some 2
  else if t = "h3" then some 3
  else if t = "h4" then some 4
  else if t = "h5" then some 5
  else if t = "h6" then some 6
  else none

/-- Tags `html2text` treats as block-level among those the pipeline can
feed it; everything else renders inline. -/
def blockTags : List String :=
  ["[document]", "html", "head", "body", "main", "article", "section", "div", "p",
   "h1", "h2", "h3", "h4", "h5", "h6", "ul", "ol", "li", "blockquote",
   "table", "tr", "td", "header", "footer", "nav", "aside", "form",
   "script", "style", "title", "meta", "link"]

/-- Nodes `html2text` renders inline (strings, comments, and any element
outside the block-tag set, headings included in the block set). -/
def isInlineNode : HtmlNode → Bool
  | .elem t _ _ => !(blockTags.contains t)
  | _ => true

/-- Attribute value used in a markdown construct (absent → empty). -/
def attrStr (name : String) (attrs : List (String × String)) : List Char :=
  (((attrs.find? (fun p => p.1 = name)).map (fun p => p.2)).getD "").toList

mutual

/-- Modelled from the documented `html2text` rendering of inline content
(with `ignore_links = ignore_images = ignore_emphasis = False`):
`[text](href)` links, `![alt](src)` images, `_…_` emphasis, `**…**` strong
emphasis; other inline tags contribute their children; comments nothing. -/
def inlineOf : HtmlNode → List Char
  | .text s => s.toList
  | .comment _ => []
  | .elem t a ch =>
      if t = "a" then '[' :: inlineList ch ++ ']' :: '(' :: attrStr "href" a ++ [')']
      else if t = "img" then
        '!' :: '[' :: attrStr "alt" a ++ ']' :: '(' :: attrStr "src" a ++ [')']
      else if t = "em" || t = "i" then '_' :: inlineList ch ++ ['_']
      else if t = "strong" || t = "b" then
        '*' :: '*' :: inlineList ch ++ ['*', '*']
      else inlineList ch

def inlineList : List HtmlNode → List Char
  | [] => []
  | n :: r => inlineOf n ++ inlineList r

end

/-- A rendered block is kept only when it has visible content. -/
def emitBlock (b : List Char) : List (List Char) :=
  if b.all (fun c => c = ' ') then [] else [b]

mutual

/-- Modelled from the documented `html2text` block rendering: headings
become `"#" * n ++ " " ++ content`, block containers contribute the blocks
of their children, and inline material at block level becomes its own
paragraph block (adjacent inline siblings are rendered as separate blocks;
no claim of the specification depends on that grouping).  All character
data is whitespace-collapsed, so a block never contains a newline. -/
def blocksOf : HtmlNode → List (List Char)
  | .text s => emitBlock (collapseWs s.toList)
  | .comment _ => []
  | .elem t a ch =>
      match headingLevel t with
      | some k => [List.replicate k '#' ++ ' ' :: collapseWs (inlineList ch)]
      | none =>
          if blockTags.contains t then
            if ch.all isInlineNode then emitBlock (collapseWs (inlineList ch))
            else blocksList ch
          else emitBlock (collapseWs (inlineOf (.elem t a ch)))

def blocksList : List HtmlNode → List (List Char)
  | [] => []
  | n :: r => blocksOf n ++ blocksList r

end

/-- Blocks joined by the blank-line separator, as in the `html2text`
document output (the final trailing newlines are immaterial because the
pipeline strips the result). -/
def joinBlocks : List (List Char) → List Char
  | [] => []
  | [b] => b
  | b :: r => b ++ '\n' :: '\n' :: joinBlocks r

/-- `converter.handle(...)`: markdown text of a tree. -/
def html2textHandle (t : HtmlNode) : List Char :=
  joinBlocks (blocksOf t)

/-- The post-formatting of `convert_html_to_markdown_precise`:
`markdown.replace("\n\n", "\n").replace("###", "##").strip()`. -/
def formatMarkdown (s : List Char) : List Char :=
  pyStrip (pyHashReplace (pyCollapseNewlines s))

/-- The MarkdownRenderer: `html2text` conversion followed by the
post-formatting. -/
def markdownRender (t : HtmlNode) : List Char :=
  formatMarkdown (html2textHandle t)

/-- `convert_html_to_markdown_precise`: extract the main content (which can
raise), then convert and post-format. -/
def convert_html_to_markdown_precise (doc : HtmlNode) : Except String (List Char) :=
  (extract_main_content doc).map markdownRender

/-- The state `crawl_website` reads through the driver: page height
readings over time, the document title lookup, the resolved URL, the
rendered DOM after the initial load, whether the screenshot capture
succeeds, and the extraction timestamp. -/
structure Page where
  url : String
  currentUrl : String
  title : Option String
  dom : HtmlNode
  heights : Nat → Int
  screenshotOk : Bool
  loadedTime : String

/-- The JSON-shaped crawl result assembled at the end of `crawl_website`. -/
structure CrawlRecord where
  url : String
  loadedUrl : String
  loadedTime : String
  referrerUrl : String
  depth : Nat
  metadata : PageMetadata
  screenshotUrl : Option String
  text : List Char
  html : HtmlNode
  markdown : List Char

/-- `crawl_website`: scroll, remove noise from the live DOM, extract
metadata, clean the parsed HTML, convert to markdown (which can raise and
then aborts the run before any record is built), read the body text, and
assemble the record.  An uncaught exception propagates to the caller
(`driver.quit()` runs in the `finally` block either way). -/
def crawl_website (p : Page) (timeout : Nat) : Except String CrawlRecord :=
  let _steps := dynamic_scroll p.heights timeout
  let dom1 := remove_unnecessary_elements p.dom
  let metadata := extract_metadata p.title p.currentUrl dom1
  let clean_html := parse_clean_html dom1
  match convert_html_to_markdown_precise clean_html with
  | .error e => .error e
  | .ok md =>
      match findTag "body" dom1 with
      | none => .error "NoSuchElementException: body"
      | some b =>
          .ok { url := p.url
                loadedUrl := p.currentUrl
                loadedTime := p.loadedTime
                referrerUrl := p.currentUrl
                depth := 0
                metadata := metadata
                screenshotUrl := if p.screenshotOk then some "screenshot.png" else none
                text := pyStrip (textOf b)
                html := clean_html
                markdown := pyStrip md }

/-- No two consecutive newline characters anywhere. -/
def noDoubleNl : List Char → Bool
  | a :: b :: r => !(a = '\n' && b = '\n') && noDoubleNl (b :: r)
  | _ => true

/-- No three consecutive newline characters anywhere. -/
def noTripleNl : List Char → Bool
  | a :: b :: c :: r => !(a = '\n' && b = '\n' && c = '\n') && noTripleNl (b :: c :: r)
  | _ => true

/-- No leading whitespace. -/
def trimmedL : List Char → Bool
  | [] => true
  | c :: _ => !pyWs c

/-- No trailing whitespace. -/
def trimmedR : List Char → Bool
  | [] => true
  | [c] => !pyWs c
  | _ :: r => trimmedR r

/-- Does a node's tag/attribute shape match the rule predicate? -/
def nodeMatches (pred : String → List (String × String) → Bool) : HtmlNode → Bool
  | .elem t a _ => pred t a
  | _ => false

mutual

/-- The node and all of its descendants are unmatched by the rule set. -/
def predFreeNode (pred : String → List (String × String) → Bool) :
    HtmlNode → Bool
  | .elem t a ch => !pred t a && predFreeList pred ch
  | _ => true

def predFreeList (pred : String → List (String × String) → Bool) :
    List HtmlNode → Bool
  | [] => true
  | c :: r => predFreeNode pred c && predFreeList pred r

end

/-- Every node strictly below the root is unmatched by the rule set. -/
def noMatchBelow (pred : String → List (String × String) → Bool) :
    HtmlNode → Bool
  | .elem _ _ ch => predFreeList pred ch
  | _ => true

/-- The parsed document the pipeline's converter actually receives: the raw
DOM after the live-DOM noise removal and `parse_clean_html`. -/
def pipelineHtml (p : Page) : HtmlNode :=
  parse_clean_html (remove_unnecessary_elements p.dom)

/-- Number of leading `#` markers of the markdown rendered for a lone
`<hn>Title</hn>` heading. -/
def renderLevel (n : Nat) : Nat :=
  ((markdownRender (.elem ("h" ++ toString n) [] [.text "Title"])).takeWhile
    (fun c => c = '#')).length

/-- A page state over a given DOM with benign collaborator behaviour. -/
def mkPage (dom : HtmlNode) : Page where
  url := "https://example.test/"
  currentUrl := "https://example.test/page"
  title := some "T"
  dom := dom
  heights := fun _ => 100
  screenshotOk := true
  loadedTime := "2024-01-01T00:00:00.000Z"

/-- The specification's scenario document:
`<html lang="en"><head><meta name="author" content="Ada"></head><body><nav>menu</nav><main><p>Hello</p></main><footer>f</footer></body></html>`. -/
def scenarioDoc : HtmlNode :=
  .elem "[document]" []
    [.elem "html" [("lang", "en")]
      [.elem "head" [] [.elem "meta" [("name", "author"), ("content", "Ada")] []],
       .elem "body" []
         [.elem "nav" [] [.text "menu"],
          .elem "main" [] [.elem "p" [] [.text "Hello"]],
          .elem "footer" [] [.text "f"]]]]

/-- The scenario document after the DOM-level and tree-level noise removal. -/
def scenarioCleaned : HtmlNode :=
  .elem "[document]" []
    [.elem "html" [("lang", "en")]
      [.elem "head" [] [.elem "meta" [("name", "author"), ("content", "Ada")] []],
       .elem "body" [] [.elem "main" [] [.elem "p" [] [.text "Hello"]]]]]

/-- The isolated main-content subtree of the scenario. -/
def scenarioMain : HtmlNode :=
  .elem "main" [] [.elem "p" [] [.text "Hello"]]

/-- The scenario loaded as a page. -/
def scenarioPage : Page := mkPage scenarioDoc

/-- A document whose `main` has text only inside a `nav` that the cleanup
decomposes before the comment filter can run. -/
def mainNavDoc : HtmlNode :=
  .elem "[document]" []
    [.elem "html" []
      [.elem "body" [] [.elem "main" [] [.elem "nav" [] [.text "menu"]]]]]

/-- `mainNavDoc` loaded as a page. -/
def mainNavPage : Page := mkPage mainNavDoc

/-- A fragment document with no `main`, `article` or `body` element at all
(the `html.parser` builder does not invent missing structure). -/
def noBodyDoc : HtmlNode :=
  .elem "[document]" [] [.elem "div" [] [.text "x"]]

/-- `noBodyDoc` loaded as a page. -/
def noBodyPage : Page := mkPage noBodyDoc

/-- A document with no `main` but with an `article` holding content, and a
second document with both an (empty) `main` and that `article`. -/
def articleDoc : HtmlNode :=
  .elem "[document]" []
    [.elem "html" []
      [.elem "body" [] [.elem "article" [] [.text "A"]]]]

/-- A document carrying an empty `main` landmark before a non-empty
`article`: the `main` is still selected because a found tag is truthy. -/
def emptyMainDoc : HtmlNode :=
  .elem "[document]" []
    [.elem "html" []
      [.elem "body" [] [.elem "main" [] [], .elem "article" [] [.text "A"]]]]

/-- The specification's second scenario body:
`<div class="ad-banner">X</div><p>Keep</p>`, no `main`, no `article`. -/
def adBannerDoc : HtmlNode :=
  .elem "[document]" []
    [.elem "html" []
      [.elem "body" []
        [.elem "div" [("class", "ad-banner")] [.text "X"],
         .elem "p" [] [.text "Keep"]]]]

/-- `adBannerDoc` with an additional `nav` element in front. -/
def navAdDoc : HtmlNode :=
  .elem "[document]" []
    [.elem "html" []
      [.elem "body" []
        [.elem "nav" [] [.text "menu"],
         .elem "div" [("class", "ad-banner")] [.text "X"],
         .elem "p" [] [.text "Keep"]]]]

/-- A paragraph with a link. -/
def linkTree : HtmlNode :=
  .elem "p" [] [.elem "a" [("href", "https://e.x/a")] [.text "Link"]]

/-- A paragraph with an image. -/
def imgTree : HtmlNode :=
  .elem "p" [] [.elem "img" [("src", "i.png"), ("alt", "Alt")] []]

/-- A paragraph with emphasis and strong emphasis. -/
def emTree : HtmlNode :=
  .elem "p" []
    [.elem "em" [] [.text "Em"], .text " and ", .elem "strong" [] [.text "St"]]

/-- C5: ContentIsolator selects exactly one subtree by priority: the first `main` element when one exists, else the first `article`, else the document body; whenever a `main` landmark is present it is selected over the article and body fallbacks. -/
theorem c5_selection (t : HtmlNode) :
    (∀ m, findTag "main" t = some m → selectMain t = some m) ∧
    (findTag "main" t = none →
       ∀ a, findTag "article" t = some a → selectMain t = some a) ∧
    (findTag "main" t = none → findTag "article" t = none →
       selectMain t = findTag "body" t) := by
  refine ⟨?_, ?_, ?_⟩
  · intro m hm
    simp [selectMain, hm, truthyOpt]
  · intro hf a ha
    simp [selectMain, hf, ha, truthyOpt]
  · intro hf ha
    simp [selectMain, hf, ha, truthyOpt]

/-- Witness for C5: on a document whose only `main` is empty it is still selected; with no `main` at all the `article` is selected. -/
theorem c5_selection_witness :
    findTag "main" emptyMainDoc = some (.elem "main" [] []) ∧
    selectMain emptyMainDoc = some (.elem "main" [] []) ∧
    findTag "main" articleDoc = none ∧
    selectMain articleDoc = some (.elem "article" [] [.text "A"]) :=
  ⟨rfl, (c5_selection emptyMainDoc).1 (.elem "main" [] []) rfl, rfl,
   (c5_selection articleDoc).2.1 rfl (.elem "article" [] [.text "A"]) rfl⟩

/-- C6: when no `main`, `article` or `body` element exists at all, the pipeline aborts with a distinct, non-silent error (`None.find_all` raises `AttributeError`) that propagates out of `crawl_website`, and no CrawlRecord is produced. -/
theorem c6_no_subtree (t : HtmlNode)
    (h1 : findTag "main" t = none) (h2 : findTag "article" t = none)
    (h3 : findTag "body" t = none) :
    convert_html_to_markdown_precise t = .error errNoSubtree ∧
    errNoSubtree ≠ errComment ∧
    ∀ (p : Page) (n : Nat), pipelineHtml p = t →
      crawl_website p n = .error errNoSubtree := by
  have hsel : selectMain t = none := by
    simp [selectMain, h1, h2, h3, truthyOpt]
  refine ⟨?_, by decide, ?_⟩
  · simp [convert_html_to_markdown_precise, extract_main_content, hsel, Except.map]
  · intro p n hp
    simp only [pipelineHtml] at hp
    simp only [crawl_website, hp]
    simp [convert_html_to_markdown_precise, extract_main_content, hsel, Except.map]

/-- Witness for C6: a fragment document with no body aborts the crawl with the no-subtree error. -/
theorem c6_witness :
    findTag "main" noBodyDoc = none ∧ findTag "article" noBodyDoc = none ∧
    findTag "body" noBodyDoc = none ∧
    crawl_website noBodyPage 10 = .error errNoSubtree :=
  ⟨rfl, rfl, rfl, (c6_no_subtree noBodyDoc rfl rfl rfl).2.2 noBodyPage 10 rfl⟩

/-- C1 (amended): for every input whose selected main-content subtree still contains a string node after the `header/footer/nav/script/style/aside/form` cleanup, the comment-removal filter evaluates `BeautifulSoup.Comment` and raises `AttributeError`, so `convert_html_to_markdown_precise` errors instead of returning markdown and `crawl_website` propagates the error, producing no CrawlRecord. -/
theorem c1_amended (t sub : HtmlNode) (hsel : selectMain t = some sub)
    (hstr : hasStringBelow (cleanTreeP (tagIn extractNoiseTags) sub) = true) :
    convert_html_to_markdown_precise t = .error errComment ∧
    ∀ (p : Page) (n : Nat), pipelineHtml p = t →
      crawl_website p n = .error errComment := by
  constructor
  · simp [convert_html_to_markdown_precise, extract_main_content, hsel, hstr, Except.map]
  · intro p n hp
    simp only [pipelineHtml] at hp
    simp only [crawl_website, hp]
    simp [convert_html_to_markdown_precise, extract_main_content, hsel, hstr, Except.map]

/-- Witness for C1: the scenario document keeps the text `Hello` in its cleaned subtree, so conversion and the crawl both raise the comment-filter error. -/
theorem c1_amended_witness :
    convert_html_to_markdown_precise scenarioCleaned = .error errComment ∧
    crawl_website scenarioPage 10 = .error errComment := by
  have h := c1_amended scenarioCleaned scenarioMain rfl rfl
  exact ⟨h.1, h.2 scenarioPage 10 rfl⟩

/-- Counterexample to C1 as stated: a document whose selected `main` subtree has a text node only inside a `nav` does not raise - the text is decomposed before the comment filter runs, conversion returns markdown, and `crawl_website` returns a record. -/
theorem c1_counterexample :
    selectMain mainNavDoc = some (.elem "main" [] [.elem "nav" [] [.text "menu"]]) ∧
    hasStringBelow (.elem "main" [] [.elem "nav" [] [.text "menu"]]) = true ∧
    convert_html_to_markdown_precise mainNavDoc = .ok [] ∧
    (crawl_website mainNavPage 10).isOk = true := by
  refine ⟨rfl, rfl, by rfl, by rfl⟩

/-- C2 (code bug): on the specification scenario the metadata lookups do produce author `Ada` and language `en` and the isolated subtree is exactly `<main><p>Hello</p></main>`, whose rendering would be `Hello`; but the pipeline raises the `BeautifulSoup.Comment` AttributeError instead of returning that markdown, so no record is produced. -/
theorem c2_failing :
    (extract_metadata (some "T") "https://example.test/page"
        (remove_unnecessary_elements scenarioDoc)).author = some "Ada" ∧
    (extract_metadata (some "T") "https://example.test/page"
        (remove_unnecessary_elements scenarioDoc)).language = some "en" ∧
    selectMain (pipelineHtml scenarioPage) = some scenarioMain ∧
    cleanTreeP (tagIn extractNoiseTags) scenarioMain = scenarioMain ∧
    markdownRender scenarioMain = "Hello".toList ∧
    crawl_website scenarioPage 10 = .error errComment := by
  refine ⟨rfl, rfl, by rfl, rfl, by decide, by rfl⟩

/-- C7: metadata extraction is total; each of the six fields depends only on its own lookup, a missing source yields `none` for that field alone, and `canonicalUrl` is always the driver's current URL (a plain string, never null). -/
theorem c7_metadata (title : Option String) (url : String) (dom : HtmlNode) :
    (extract_metadata title url dom).canonicalUrl = url ∧
    (extract_metadata title url dom).title = title ∧
    (extract_metadata title url dom).description = metaContent dom "description" ∧
    (extract_metadata title url dom).author = metaContent dom "author" ∧
    (extract_metadata title url dom).keywords = metaContent dom "keywords" ∧
    (extract_metadata title url dom).language = langOf dom ∧
    (metaContent dom "author" = none → (extract_metadata title url dom).author = none) ∧
    (langOf dom = none → (extract_metadata title url dom).language = none) ∧
    (∀ dom₂ : HtmlNode, metaContent dom₂ "description" = metaContent dom "description" →
      (extract_metadata title url dom₂).description =
        (extract_metadata title url dom).description) := by
  refine ⟨rfl, rfl, rfl, rfl, rfl, rfl, ?_, ?_, ?_⟩
  · intro h; simpa [extract_metadata] using h
  · intro h; simpa [extract_metadata] using h
  · intro dom₂ h; simpa [extract_metadata] using h

/-- Witness for C7: on a document without meta tags the author and language are `none`, and the description field of the scenario page equals its own lookup. -/
theorem c7_metadata_witness :
    (extract_metadata none "https://example.test/" noBodyDoc).author = none ∧
    (extract_metadata none "https://example.test/" noBodyDoc).language = none ∧
    (extract_metadata (some "T") "https://example.test/page"
        (remove_unnecessary_elements scenarioDoc)).description =
      metaContent (remove_unnecessary_elements scenarioDoc) "description" := by
  refine ⟨(c7_metadata none "https://example.test/" noBodyDoc).2.2.2.2.2.2.1 rfl,
          (c7_metadata none "https://example.test/" noBodyDoc).2.2.2.2.2.2.2.1 rfl,
          (c7_metadata (some "T") "https://example.test/page"
            (remove_unnecessary_elements scenarioDoc)).2.2.1⟩

theorem scrollLoop_le (h : Nat → Int) :
    ∀ (fuel k : Nat), scrollLoop h fuel k ≤ k + fuel := by
  intro fuel
  induction fuel with
  | zero => intro k; simp [scrollLoop]
  | succ f ih =>
      intro k
      by_cases he : h (k + 1) = h k
      · simp [scrollLoop, he]
      · have := ih (k + 1)
        simp [scrollLoop, he]
        omega

theorem scrollLoop_ne (h : Nat → Int) (hne : ∀ j, h (j + 1) ≠ h j) :
    ∀ (fuel k : Nat), scrollLoop h fuel k = k + fuel := by
  intro fuel
  induction fuel with
  | zero => intro k; simp [scrollLoop]
  | succ f ih =>
      intro k
      have h2 := ih (k + 1)
      simp [scrollLoop, hne k, h2]
      omega

theorem scrollLoop_stop (h : Nat → Int) :
    ∀ (fuel k0 k : Nat), k0 ≤ k → k < k0 + fuel →
      (∀ j, k0 ≤ j → j < k → h (j + 1) ≠ h j) → h (k + 1) = h k →
      scrollLoop h fuel k0 = k + 1 := by
  intro fuel
  induction fuel with
  | zero => intro k0 k hle hlt _ _; omega
  | succ f ih =>
      intro k0 k hle hlt hne heq
      by_cases he : h (k0 + 1) = h k0
      · have hk : k0 = k := by
          by_contra hne0
          exact hne k0 le_rfl (by omega) he
        subst hk
        simp [scrollLoop, he]
      · have hk : k0 ≠ k := fun hc => he (hc ▸ heq)
        have := ih (k0 + 1) k (by omega) (by omega)
          (fun j hj1 hj2 => hne j (by omega) hj2) heq
        simp [scrollLoop, he]
        exact this

/-- C8: the scroll loop performs at most `timeout` one-second iterations, runs to the timeout when the height keeps changing, stops right after the first pair of equal consecutive readings, and exits after a single settle interval when the first two readings agree. -/
theorem c8_scroll (h : Nat → Int) (T : Nat) :
    dynamic_scroll h T ≤ T ∧
    ((∀ j, h (j + 1) ≠ h j) → dynamic_scroll h T = T) ∧
    (∀ k, k < T → (∀ j, j < k → h (j + 1) ≠ h j) → h (k + 1) = h k →
       dynamic_scroll h T = k + 1) ∧
    (h 1 = h 0 → 1 ≤ T → dynamic_scroll h T = 1) := by
  refine ⟨?_, ?_, ?_, ?_⟩
  · simpa using scrollLoop_le h T 0
  · intro hne; simpa using scrollLoop_ne h hne T 0
  · intro k hk hne heq
    exact scrollLoop_stop h T 0 k (Nat.zero_le k) (by omega)
      (fun j _ hj => hne j hj) heq
  · intro heq hT
    exact scrollLoop_stop h T 0 0 le_rfl (by omega) (by omega) heq

/-- Witness for C8: with the constant height sequence 100,100,... and timeout 10 the loop exits after one iteration. -/
theorem c8_scroll_witness :
    dynamic_scroll (fun _ => (100 : Int)) 10 = 1 :=
  (c8_scroll (fun _ => (100 : Int)) 10).2.2.2 rfl (by omega)

/-- Counterexample to C9 as stated: the class `ad-banner` does not contain the substring `ads`, so neither the tree-level filter nor the DOM-level rules remove the ad div of the scenario body, and the conversion raises instead of producing markdown `Keep`. -/
theorem c9_counterexample :
    parse_clean_html adBannerDoc = adBannerDoc ∧
    remove_unnecessary_elements adBannerDoc = adBannerDoc ∧
    convert_html_to_markdown_precise adBannerDoc ≠ .ok "Keep".toList := by
  refine ⟨by rfl, by rfl, ?_⟩
  intro hcontra
  rw [show convert_html_to_markdown_precise adBannerDoc = .error errComment
        from by rfl] at hcontra
  exact Except.noConfusion hcontra

/-- C9 (amended): the tree-level NoiseFilter removes only the fixed landmark/script/style tag set; attribute-substring rules exist only in the DOM-level variant and match class substrings `ads` and `modal` and id substring `cookie` on div elements, so the `ad-banner` div is retained while a `nav` sibling is removed; the scenario conversion errors out instead of yielding `Keep`. -/
theorem c9_amended :
    strContains "ad-banner" "ads" = false ∧
    domNoise "div" [("class", "ad-banner")] = false ∧
    strContains "ads-box" "ads" = true ∧
    domNoise "div" [("class", "ads-box")] = true ∧
    remove_unnecessary_elements adBannerDoc = adBannerDoc ∧
    parse_clean_html navAdDoc = adBannerDoc ∧
    convert_html_to_markdown_precise adBannerDoc = .error errComment := by
  exact ⟨by decide, by decide, by decide, by decide, by rfl, by rfl, by rfl⟩

mutual

theorem cleanTreeP_free (pred : String → List (String × String) → Bool) :
    ∀ t : HtmlNode, noMatchBelow pred (cleanTreeP pred t) = true
  | .elem t a ch => by
      simp only [cleanTreeP, noMatchBelow]
      exact cleanListP_free pred ch
  | .comment s => rfl
  | .text s => rfl

theorem cleanListP_free (pred : String → List (String × String) → Bool) :
    ∀ ch : List HtmlNode, predFreeList pred (cleanListP pred ch) = true
  | [] => rfl
  | .elem t a ch0 :: r => by
      by_cases hp : pred t a
      · simp only [cleanListP, hp, if_true]
        exact cleanListP_free pred r
      · simp [cleanListP, hp, cleanTreeP, predFreeList, predFreeNode,
          cleanListP_free pred ch0, cleanListP_free pred r]
  | .comment s :: r => by
      simp [cleanListP, predFreeList, predFreeNode, cleanListP_free pred r]
  | .text s :: r => by
      simp [cleanListP, predFreeList, predFreeNode, cleanListP_free pred r]

end

mutual

theorem cleanTreeP_id (pred : String → List (String × String) → Bool) :
    ∀ t : HtmlNode, noMatchBelow pred t = true → cleanTreeP pred t = t
  | .elem t a ch => fun h => by
      simp only [noMatchBelow] at h
      simp only [cleanTreeP]
      rw [cleanListP_id pred ch h]
  | .comment s => fun _ => rfl
  | .text s => fun _ => rfl

theorem cleanListP_id (pred : String → List (String × String) → Bool) :
    ∀ ch : List HtmlNode, predFreeList pred ch = true → cleanListP pred ch = ch
  | [] => fun _ => rfl
  | .elem t a ch0 :: r => fun h => by
      simp only [predFreeList, predFreeNode, Bool.and_eq_true, Bool.not_eq_true'] at h
      obtain ⟨⟨hnp, hfree⟩, hr⟩ := h
      simp [cleanListP, hnp, cleanTreeP,
        cleanListP_id pred ch0 hfree, cleanListP_id pred r hr]
  | .comment s :: r => fun h => by
      simp only [predFreeList, Bool.and_eq_true] at h
      simp only [cleanListP]
      rw [cleanListP_id pred r h.2]
  | .text s :: r => fun h => by
      simp only [predFreeList, Bool.and_eq_true] at h
      simp only [cleanListP]
      rw [cleanListP_id pred r h.2]

end

/-- C10: the noise filter removes every node matching the rule predicate together with its whole subtree and nothing else - rule-free trees are returned unchanged - and it is idempotent. -/
theorem c10_filter (pred : String → List (String × String) → Bool) (t : HtmlNode) :
    noMatchBelow pred (cleanTreeP pred t) = true ∧
    (noMatchBelow pred t = true → cleanTreeP pred t = t) ∧
    cleanTreeP pred (cleanTreeP pred t) = cleanTreeP pred t :=
  ⟨cleanTreeP_free pred t, cleanTreeP_id pred t,
   cleanTreeP_id pred _ (cleanTreeP_free pred t)⟩

/-- Witness for C10: concrete application of the filter properties to the nav-plus-ad document and the ad-banner document. -/
theorem c10_filter_witness :
    noMatchBelow (tagIn parseCleanTags) (cleanTreeP (tagIn parseCleanTags) navAdDoc) = true ∧
    cleanTreeP (tagIn parseCleanTags) adBannerDoc = adBannerDoc ∧
    cleanTreeP (tagIn parseCleanTags) (cleanTreeP (tagIn parseCleanTags) navAdDoc) =
      cleanTreeP (tagIn parseCleanTags) navAdDoc := by
  have h := c10_filter (tagIn parseCleanTags) navAdDoc
  have h2 := c10_filter (tagIn parseCleanTags) adBannerDoc
  exact ⟨h.1, h2.2.1 (by decide), h.2.2⟩

theorem noDoubleNl_two (a b : Char) (r : List Char) :
    noDoubleNl (a :: b :: r) = (!(a = '\n' && b = '\n') && noDoubleNl (b :: r)) := rfl

theorem noTripleNl_three (a b c : Char) (r : List Char) :
    noTripleNl (a :: b :: c :: r) =
      (!(a = '\n' && b = '\n' && c = '\n') && noTripleNl (b :: c :: r)) := rfl

theorem noDoubleNl_tail (a : Char) (l : List Char) (h : noDoubleNl (a :: l) = true) :
    noDoubleNl l = true := by
  cases l with
  | nil => rfl
  | cons b r =>
      rw [noDoubleNl_two, Bool.and_eq_true] at h
      exact h.2

theorem noTripleNl_tail (a : Char) (l : List Char) (h : noTripleNl (a :: l) = true) :
    noTripleNl l = true := by
  cases l with
  | nil => rfl
  | cons b r =>
      cases r with
      | nil => rfl
      | cons c r2 =>
          rw [noTripleNl_three, Bool.and_eq_true] at h
          exact h.2

theorem noTripleNl_cons (a : Char) (l : List Char) (ha : a ≠ '\n')
    (h : noTripleNl l = true) : noTripleNl (a :: l) = true := by
  cases l with
  | nil => rfl
  | cons b r =>
      cases r with
      | nil => rfl
      | cons c r2 =>
          rw [noTripleNl_three, Bool.and_eq_true]
          exact ⟨by simp [ha], h⟩

theorem noDoubleNl_cons (a : Char) (l : List Char) (ha : a ≠ '\n')
    (h : noDoubleNl l = true) : noDoubleNl (a :: l) = true := by
  cases l with
  | nil => rfl
  | cons b r =>
      rw [noDoubleNl_two, Bool.and_eq_true]
      exact ⟨by simp [ha], h⟩

theorem noDouble_noTriple (l : List Char) (h : noDoubleNl l = true) :
    noTripleNl l = true := by
  induction l with
  | nil => rfl
  | cons a r ih =>
      cases r with
      | nil => rfl
      | cons b r2 =>
          cases r2 with
          | nil => rfl
          | cons c r3 =>
              rw [noDoubleNl_two, Bool.and_eq_true] at h
              rw [noTripleNl_three, Bool.and_eq_true]
              refine ⟨?_, ih h.2⟩
              have h1 := h.1
              cases hA : decide (a = '\n') <;> cases hB : decide (b = '\n') <;>
                simp_all

theorem noNl_noDouble (b : List Char) (h : ∀ c ∈ b, c ≠ '\n') :
    noDoubleNl b = true := by
  induction b with
  | nil => rfl
  | cons a r ih =>
      exact noDoubleNl_cons a r (h a (by simp))
        (ih (fun c hc => h c (by simp [hc])))

theorem noTripleNl_append (b m : List Char) (hb : ∀ c ∈ b, c ≠ '\n')
    (hm : noTripleNl m = true) : noTripleNl (b ++ m) = true := by
  induction b with
  | nil => simpa
  | cons a b2 ih =>
      have h2 := ih (fun c hc => hb c (by simp [hc]))
      simpa using noTripleNl_cons a (b2 ++ m) (hb a (by simp)) h2

theorem noTripleNl_nn (m : List Char) (hm : noTripleNl m = true)
    (hh : ∀ c, m.head? = some c → c ≠ '\n') :
    noTripleNl ('\n' :: '\n' :: m) = true := by
  cases m with
  | nil => rfl
  | cons x r =>
      have hx : x ≠ '\n' := hh x rfl
      cases r with
      | nil =>
          rw [noTripleNl_three, Bool.and_eq_true]
          exact ⟨by simp [hx], rfl⟩
      | cons y r2 =>
          rw [noTripleNl_three, Bool.and_eq_true]
          refine ⟨by simp [hx], ?_⟩
          rw [noTripleNl_three, Bool.and_eq_true]
          exact ⟨by simp [hx], hm⟩

theorem joinBlocks_cons_decomp (b2 : List Char) (r : List (List Char)) :
    ∃ m, joinBlocks (b2 :: r) = b2 ++ m := by
  cases r with
  | nil => exact ⟨[], by simp [joinBlocks]⟩
  | cons b3 r2 => exact ⟨'\n' :: '\n' :: joinBlocks (b3 :: r2), rfl⟩

theorem join_ok :
    ∀ bs : List (List Char),
      (∀ b ∈ bs, b ≠ [] ∧ ∀ c ∈ b, c ≠ '\n') →
      noTripleNl (joinBlocks bs) = true
  | [] => fun _ => rfl
  | [b] => fun h => by
      simp only [joinBlocks]
      exact noDouble_noTriple b (noNl_noDouble b (h b (by simp)).2)
  | b :: b2 :: r => fun h => by
      have hb := h b (by simp)
      have hj := join_ok (b2 :: r) (fun x hx => h x (by simp at hx ⊢; tauto))
      have hb2 := h b2 (by simp)
      show noTripleNl (b ++ '\n' :: '\n' :: joinBlocks (b2 :: r)) = true
      apply noTripleNl_append b _ hb.2
      apply noTripleNl_nn _ hj
      intro c hc
      obtain ⟨m, hm⟩ := joinBlocks_cons_decomp b2 r
      rw [hm] at hc
      cases hb2e : b2 with
      | nil => exact absurd hb2e hb2.1
      | cons d t2 =>
          rw [hb2e] at hc
          simp only [List.cons_append, List.head?_cons, Option.some.injEq] at hc
          exact hc ▸ hb2.2 d (by simp [hb2e])

theorem pyCollapse_head (a : Char) (l : List Char) :
    ∃ t2, pyCollapseNewlines (a :: l) = a :: t2 := by
  cases l with
  | nil => exact ⟨[], rfl⟩
  | cons b r =>
      by_cases hab : a = '\n' && b = '\n'
      · have ha : a = '\n' := by
          simp only [Bool.and_eq_true, decide_eq_true_eq] at hab
          exact hab.1
        refine ⟨pyCollapseNewlines r, ?_⟩
        rw [show pyCollapseNewlines (a :: b :: r) = '\n' :: pyCollapseNewlines r
              from by simp [pyCollapseNewlines, hab], ha]
      · exact ⟨pyCollapseNewlines (b :: r), by simp [pyCollapseNewlines, hab]⟩

theorem collapse_ok (s : List Char) (h : noTripleNl s = true) :
    noDoubleNl (pyCollapseNewlines s) = true := by
  induction s using pyCollapseNewlines.induct with
  | case1 a b r hab ih =>
      simp only [Bool.and_eq_true, decide_eq_true_eq] at hab
      obtain ⟨ha, hb⟩ := hab
      subst ha hb
      rw [show pyCollapseNewlines ('\n' :: '\n' :: r) = '\n' :: pyCollapseNewlines r
            from by simp [pyCollapseNewlines]]
      cases r with
      | nil => rfl
      | cons c r2 =>
          rw [noTripleNl_three, Bool.and_eq_true] at h
          have hc : c ≠ '\n' := by
            intro hcc
            rw [hcc] at h
            simp at h
          have hr : noTripleNl (c :: r2) = true := noTripleNl_tail _ _ h.2
          obtain ⟨t2, ht2⟩ := pyCollapse_head c r2
          rw [ht2, noDoubleNl_two, Bool.and_eq_true]
          refine ⟨by simp [hc], ?_⟩
          rw [← ht2]
          exact ih hr
  | case2 a b r hab ih =>
      rw [show pyCollapseNewlines (a :: b :: r) = a :: pyCollapseNewlines (b :: r)
            from by simp [pyCollapseNewlines, hab]]
      obtain ⟨t2, ht2⟩ := pyCollapse_head b r
      rw [ht2, noDoubleNl_two, Bool.and_eq_true]
      refine ⟨by revert hab; cases hA : decide (a = '\n') <;>
        cases hB : decide (b = '\n') <;> simp_all, ?_⟩
      rw [← ht2]
      exact ih (noTripleNl_tail a (b :: r) h)
  | case3 s h1 =>
      cases s with
      | nil => rfl
      | cons a r =>
          cases r with
          | nil => rfl
          | cons b r2 => exact absurd rfl (h1 a b r2)

theorem pyHash_head (a : Char) (l : List Char) :
    ∃ t2, pyHashReplace (a :: l) = a :: t2 := by
  cases l with
  | nil => exact ⟨[], rfl⟩
  | cons b r =>
      cases r with
      | nil => exact ⟨[b], rfl⟩
      | cons c r2 =>
          by_cases habc : a = '#' && b = '#' && c = '#'
          · have ha : a = '#' := by
              simp only [Bool.and_eq_true, decide_eq_true_eq] at habc
              exact habc.1.1
            refine ⟨'#' :: pyHashReplace r2, ?_⟩
            rw [show pyHashReplace (a :: b :: c :: r2) =
                  '#' :: '#' :: pyHashReplace r2 from by simp [pyHashReplace, habc], ha]
          · exact ⟨pyHashReplace (b :: c :: r2), by simp [pyHashReplace, habc]⟩

theorem hash_ok (s : List Char) (h : noDoubleNl s = true) :
    noDoubleNl (pyHashReplace s) = true := by
  induction s using pyHashReplace.induct with
  | case1 a b c r habc ih =>
      simp only [Bool.and_eq_true, decide_eq_true_eq] at habc
      obtain ⟨⟨ha, hb⟩, hc⟩ := habc
      subst ha hb hc
      rw [show pyHashReplace ('#' :: '#' :: '#' :: r) = '#' :: '#' :: pyHashReplace r
            from by simp [pyHashReplace]]
      have hr : noDoubleNl r = true :=
        noDoubleNl_tail _ _ (noDoubleNl_tail _ _ (noDoubleNl_tail _ _ h))
      exact noDoubleNl_cons _ _ (by decide) (noDoubleNl_cons _ _ (by decide) (ih hr))
  | case2 a b c r habc ih =>
      rw [show pyHashReplace (a :: b :: c :: r) = a :: pyHashReplace (b :: c :: r)
            from by simp [pyHashReplace, habc]]
      obtain ⟨t2, ht2⟩ := pyHash_head b (c :: r)
      rw [ht2, noDoubleNl_two, Bool.and_eq_true]
      rw [noDoubleNl_two, Bool.and_eq_true] at h
      refine ⟨h.1, ?_⟩
      rw [← ht2]
      exact ih h.2
  | case3 s h1 =>
      cases s with
      | nil => exact h
      | cons a r =>
          cases r with
          | nil => exact h
          | cons b r2 =>
              cases r2 with
              | nil => exact h
              | cons c r3 => exact absurd rfl (h1 a b c r3)

theorem noDoubleNl_dropWhile (p : Char → Bool) :
    ∀ l : List Char, noDoubleNl l = true → noDoubleNl (List.dropWhile p l) = true
  | [] => fun _ => rfl
  | a :: r => fun h => by
      by_cases hp : p a
      · simp only [List.dropWhile, hp]
        exact noDoubleNl_dropWhile p r (noDoubleNl_tail a r h)
      · simpa [List.dropWhile, hp] using h

theorem rstrip_shape (c : Char) (r : List Char) :
    rstripWs (c :: r) = [] ∨ rstripWs (c :: r) = c :: rstripWs r := by
  by_cases hc : rstripWs r = [] ∧ pyWs c = true
  · left
    simp [rstripWs, hc.1, hc.2]
  · right
    rw [show rstripWs (c :: r) =
          if rstripWs r = [] && pyWs c then [] else c :: rstripWs r from rfl]
    rcases Decidable.not_and_iff_or_not.mp hc with h1 | h1 <;> simp [h1]

theorem noDoubleNl_rstrip : ∀ l : List Char, noDoubleNl l = true →
    noDoubleNl (rstripWs l) = true
  | [] => fun _ => rfl
  | c :: r => fun h => by
      rcases rstrip_shape c r with hs | hs
      · rw [hs]; rfl
      · rw [hs]
        cases r with
        | nil => rfl
        | cons d r2 =>
            rcases rstrip_shape d r2 with hs2 | hs2
            · rw [hs2]; rfl
            · rw [hs2, noDoubleNl_two, Bool.and_eq_true]
              rw [noDoubleNl_two, Bool.and_eq_true] at h
              refine ⟨h.1, ?_⟩
              rw [← hs2]
              exact noDoubleNl_rstrip (d :: r2) h.2

theorem trimmedR_cons_cons (a b : Char) (r : List Char) :
    trimmedR (a :: b :: r) = trimmedR (b :: r) := rfl

theorem trimmedR_rstrip : ∀ l : List Char, trimmedR (rstripWs l) = true
  | [] => rfl
  | c :: r => by
      rcases rstrip_shape c r with hs | hs
      · rw [hs]; rfl
      · rw [hs]
        cases hr : rstripWs r with
        | nil =>
            have hcnd : ¬(rstripWs r = [] ∧ pyWs c = true) := by
              intro hand
              have : rstripWs (c :: r) = [] := by simp [rstripWs, hand.1, hand.2]
              rw [hs, hr] at this
              exact List.noConfusion this
            have hcw : pyWs c = false := by
              rcases Decidable.not_and_iff_or_not.mp hcnd with h1 | h1
              · exact absurd hr h1
              · simpa using h1
            simp [trimmedR, hcw]
        | cons d t2 =>
            rw [trimmedR_cons_cons]
            rw [← hr]
            exact trimmedR_rstrip r

theorem trimmedR_tail (a : Char) (l : List Char) (h : trimmedR (a :: l) = true) :
    trimmedR l = true := by
  cases l with
  | nil => rfl
  | cons b r => rwa [trimmedR_cons_cons] at h

theorem trimmedR_dropWhile (p : Char → Bool) :
    ∀ l : List Char, trimmedR l = true → trimmedR (List.dropWhile p l) = true
  | [] => fun _ => rfl
  | a :: r => fun h => by
      by_cases hp : p a
      · simp only [List.dropWhile, hp]
        exact trimmedR_dropWhile p r (trimmedR_tail a r h)
      · simpa [List.dropWhile, hp] using h

theorem trimmedL_dropWhile : ∀ l : List Char, trimmedL (List.dropWhile pyWs l) = true
  | [] => rfl
  | c :: r => by
      by_cases hp : pyWs c
      · simp only [List.dropWhile, hp]
        exact trimmedL_dropWhile r
      · simp [List.dropWhile, hp, trimmedL]

theorem pyStrip_props (s : List Char) (h : noDoubleNl s = true) :
    noDoubleNl (pyStrip s) = true ∧ trimmedL (pyStrip s) = true ∧
    trimmedR (pyStrip s) = true :=
  ⟨noDoubleNl_dropWhile pyWs _ (noDoubleNl_rstrip s h),
   trimmedL_dropWhile _,
   trimmedR_dropWhile pyWs _ (trimmedR_rstrip s)⟩

theorem collapseWs_no_nl : ∀ s : List Char, ∀ c ∈ collapseWs s, c ≠ '\n'
  | [] => by simp [collapseWs]
  | [c0] => by
      by_cases h : pyWs c0
      · rw [show collapseWs [c0] = if pyWs c0 then [' '] else [c0] from rfl]
        simp only [h, if_true]
        intro c hc
        simp only [List.mem_singleton] at hc
        subst hc
        decide
      · rw [show collapseWs [c0] = if pyWs c0 then [' '] else [c0] from rfl]
        rw [if_neg (by simpa using h)]
        intro c hc
        simp only [List.mem_singleton] at hc
        subst hc
        intro hcc
        subst hcc
        simp [pyWs] at h
  | a :: b :: r => by
      by_cases hab : pyWs a && pyWs b
      · simp only [collapseWs, hab, if_true]
        exact collapseWs_no_nl (b :: r)
      · simp only [collapseWs, hab, if_false]
        by_cases ha : pyWs a
        · simp only [ha, if_true]
          intro c hc
          rcases List.mem_cons.mp hc with h1 | h1
          · subst h1; decide
          · exact collapseWs_no_nl (b :: r) c h1
        · simp only [ha, if_false]
          intro c hc
          rcases List.mem_cons.mp hc with h1 | h1
          · subst h1
            intro hcc
            subst hcc
            simp [pyWs] at ha
          · exact collapseWs_no_nl (b :: r) c h1

theorem emitBlock_mem (x b : List Char) (h : b ∈ emitBlock x) :
    b = x ∧ x ≠ [] := by
  unfold emitBlock at h
  by_cases hall : x.all (fun c => c = ' ')
  · simp [hall] at h
  · simp [hall] at h
    subst h
    refine ⟨rfl, ?_⟩
    intro hx
    subst hx
    simp at hall

mutual

theorem blocksOf_ok : ∀ t : HtmlNode, ∀ b ∈ blocksOf t, b ≠ [] ∧ ∀ c ∈ b, c ≠ '\n'
  | .text s => fun b hb => by
      simp only [blocksOf] at hb
      obtain ⟨hbx, hxne⟩ := emitBlock_mem _ _ hb
      subst hbx
      exact ⟨hxne, collapseWs_no_nl _⟩
  | .comment s => fun b hb => by simp [blocksOf] at hb
  | .elem t a ch => fun b hb => by
      cases hk : headingLevel t with
      | some k =>
          simp only [blocksOf, hk, List.mem_singleton] at hb
          subst hb
          constructor
          · simp
          · intro c hc
            rcases List.mem_append.mp hc with h1 | h1
            · rw [List.eq_of_mem_replicate h1]; decide
            · rcases List.mem_cons.mp h1 with h2 | h2
              · subst h2; decide
              · exact collapseWs_no_nl _ c h2
      | none =>
          by_cases hbt : blockTags.contains t
          · by_cases hall : ch.all isInlineNode
            · simp only [blocksOf, hk, hbt, hall, if_true] at hb
              obtain ⟨hbx, hxne⟩ := emitBlock_mem _ _ hb
              subst hbx
              exact ⟨hxne, collapseWs_no_nl _⟩
            · simp only [blocksOf, hk, hbt, hall, if_true, if_false,
                Bool.false_eq_true] at hb
              exact blocksList_ok ch b hb
          · simp only [blocksOf, hk, hbt, if_false, Bool.false_eq_true] at hb
            obtain ⟨hbx, hxne⟩ := emitBlock_mem _ _ hb
            subst hbx
            exact ⟨hxne, collapseWs_no_nl _⟩

theorem blocksList_ok :
    ∀ ch : List HtmlNode, ∀ b ∈ blocksList ch, b ≠ [] ∧ ∀ c ∈ b, c ≠ '\n'
  | [] => fun b hb => by simp [blocksList] at hb
  | n :: r => fun b hb => by
      simp only [blocksList] at hb
      rcases List.mem_append.mp hb with h1 | h1
      · exact blocksOf_ok n b h1
      · exact blocksList_ok r b h1

end

theorem handle_noTriple (t : HtmlNode) : noTripleNl (html2textHandle t) = true :=
  join_ok (blocksOf t) (blocksOf_ok t)

/-- C3: for every input tree the rendered markdown contains no run of three or more newline characters (hence no run of two or more blank lines) and carries no leading or trailing whitespace. -/
theorem c3_whitespace (t : HtmlNode) :
    noTripleNl (markdownRender t) = true ∧
    trimmedL (markdownRender t) = true ∧
    trimmedR (markdownRender t) = true := by
  have h1 := handle_noTriple t
  have h2 := collapse_ok _ h1
  have h3 := hash_ok _ h2
  have h4 := pyStrip_props _ h3
  exact ⟨noDouble_noTriple _ h4.1, h4.2.1, h4.2.2⟩

/-- Counterexample to C4 as stated: there is no cap level such that rendered heading levels equal `min n cap` for all `n` up to 6 - the `###`-to-`##` text replacement sends h3 to level 2 but h4 to level 3. -/
theorem c4_counterexample :
    ¬ ∃ cap : Nat, ∀ n : Nat, 1 ≤ n → n ≤ 6 → renderLevel n = min n cap := by
  rintro ⟨cap, hc⟩
  have h3 := hc 3 (by omega) (by omega)
  have h4 := hc 4 (by omega) (by omega)
  rw [show renderLevel 3 = 2 from by decide] at h3
  rw [show renderLevel 4 = 3 from by decide] at h4
  omega

/-- C4 (amended): heading markers are rewritten by the global replacement of `###` with `##`, so a level-n heading renders with `n - n / 3` hashes (h3 to 2, h4 to 3, h5 and h6 to 4) rather than being clamped at a fixed cap; link targets and text, image sources and alt text, and emphasis markers are preserved. -/
theorem c4_amended :
    (∀ n : Nat, 1 ≤ n → n ≤ 6 → renderLevel n = n - n / 3) ∧
    markdownRender linkTree = "[Link](https://e.x/a)".toList ∧
    markdownRender imgTree = "![Alt](i.png)".toList ∧
    markdownRender emTree = "_Em_ and **St**".toList := by
  refine ⟨?_, by decide, by decide, by decide⟩
  intro n h1 h2
  interval_cases n <;> decide

/-- Witness for C4: the level-4 heading renders with 3 leading hashes. -/
theorem c4_amended_witness : renderLevel 4 = 4 - 4 / 3 :=
  c4_amended.1 4 (by omega) (by omega)
